import Mathlib

/-!
Verification of the heat-spot dashboard pipeline (plot.py): the date filter
`filter_by_date` and the aggregation/normalization core of `generate_heatmap`.

Modelling conventions (shallow embedding of the pandas/geopandas code):
* A detection row carries `latitude`, `longitude`, `brightness` as exact
  rationals and `acq_date` as an integer day ordinal (the code compares
  calendar dates with a total order, which ℤ models faithfully).
* A dataframe is its list of rows plus flags recording which optional
  columns are present; pandas boolean-mask filtering returns a fresh copy
  and preserves the column set, so filtering keeps the flags.
* A region of the boundary layer carries its name (`ADM1_TH`) and its
  point-in-polygon predicate `geometry_contains lon lat`, abstracting the
  shapely geometry that `gpd.sjoin(..., predicate="within")` consults.
* `Series.value_counts` is modelled as: drop the missing values, list the
  distinct values in order of first appearance with their multiplicities,
  and stably sort by count descending (pandas returns counts in descending
  order, ties in first-appearance order).
* `sort_values(..., ascending=False)` is modelled as a stable descending
  sort on the count column.
-/

structure Detection where
  latitude : ℚ
  longitude : ℚ
  brightness : ℚ
  acq_date : ℤ
deriving DecidableEq

/-- A pandas dataframe of detections: the rows plus which optional columns
exist.  The detection loader guarantees `acq_date`; `latitude`, `longitude`
and `brightness` may be absent, which the code probes with
`'latitude' in df.columns` and `df.get('brightness', 1)`. -/
structure FireDataFrame where
  rows : List Detection
  hasLatitude : Bool
  hasLongitude : Bool
  hasBrightness : Bool
deriving DecidableEq

/-- One row of the boundary GeoDataFrame: a province name and its geometry,
abstracted to the boolean point-in-polygon predicate (longitude, latitude)
that the spatial join evaluates. -/
structure Region where
  ADM1_TH : String
  geometry_contains : ℚ → ℚ → Bool

/-- plot.py `filter_by_date`: range mode keeps rows with
`date_start <= acq_date <= date_end`; any other mode takes the else branch
and keeps rows with `acq_date == date_exact`. -/
def filter_by_date (df : FireDataFrame) (mode : String)
    (date_start date_end date_exact : ℤ) : FireDataFrame :=
  if mode = "range" then
    { df with
      rows := df.rows.filter
        (fun r => decide (date_start ≤ r.acq_date) && decide (r.acq_date ≤ date_end)) }
  else
    { df with rows := df.rows.filter (fun r => decide (r.acq_date = date_exact)) }

/-- The rows feeding `heat_data`: when both coordinate columns exist and the
filtered frame is nonempty, `df_filtered['brightness'] =
df_filtered.get('brightness', 1)` fills a missing brightness column with the
scalar 1 (on the fresh filtered copy); otherwise the heat data stays empty. -/
def heat_rows (df_filtered : FireDataFrame) : List Detection :=
  if df_filtered.hasLatitude && df_filtered.hasLongitude
      && ! df_filtered.rows.isEmpty then
    df_filtered.rows.map
      (fun r => if df_filtered.hasBrightness then r else { r with brightness := 1 })
  else []

/-- `heat_data = df_filtered[['latitude', 'longitude', 'brightness']].values.tolist()`. -/
def heat_data (df_filtered : FireDataFrame) : List (ℚ × ℚ × ℚ) :=
  (heat_rows df_filtered).map (fun r => (r.latitude, r.longitude, r.brightness))

/-- The `ADM1_TH` column of `gpd.sjoin(heat_points, gdf, how="left",
predicate="within")`: each point yields one row per region containing it, in
boundary order, or a single row with a missing name when no region does.
Points are (longitude, latitude), as built by `Point(lon, lat)`. -/
def sjoin_names (points : List (ℚ × ℚ)) (gdf : List Region) : List (Option String) :=
  points.flatMap (fun p =>
    let hits := gdf.filter (fun g => g.geometry_contains p.1 p.2)
    if hits.isEmpty then [none] else hits.map (fun g => some g.ADM1_TH))

/-- Distinct values of a list in order of first appearance (the order in
which a pandas hash table first sees each value). -/
def distinct_in_order : List String → List String
  | [] => []
  | n :: ns => n :: (distinct_in_order ns).filter (fun m => decide (m ≠ n))

/-- Insert into a list sorted by count descending, after strictly greater
counts and before lower-or-equal ones, so that the sort built on it is
stable. -/
def insertDesc (x : String × Nat) : List (String × Nat) → List (String × Nat)
  | [] => [x]
  | y :: ys => if x.2 < y.2 then y :: insertDesc x ys else x :: y :: ys

/-- Stable insertion sort by count, descending. -/
def sortDesc : List (String × Nat) → List (String × Nat)
  | [] => []
  | x :: xs => insertDesc x (sortDesc xs)

/-- `joined['ADM1_TH'].value_counts()`: drop the missing names, count each
distinct name, and present the counts in descending order (ties in
first-appearance order). -/
def value_counts (names : List (Option String)) : List (String × Nat) :=
  let vals := names.filterMap id
  sortDesc ((distinct_in_order vals).map (fun n => (n, vals.count n)))

/-- `gdf.merge(province_counts, on='ADM1_TH', how='left')` followed by
`fillna(0)`: every boundary row is kept in order and looks up its count.
`value_counts` yields pairwise-distinct names, so the left merge matches at
most one row and `find?` is the exact lookup. -/
def merge_counts (gdf : List Region) (pc : List (String × Nat)) : List (String × Nat) :=
  gdf.map (fun g => (g.ADM1_TH, ((pc.find? (fun e => e.1 == g.ADM1_TH)).map Prod.snd).getD 0))

/-- `min_b` of the normalization step. -/
def min_b : ℚ := 250

/-- `max_b` of the normalization step. -/
def max_b : ℚ := 400

/-- Loop body of the normalization: `b = max(min_b, min(b, max_b));
weight = (b - min_b) / (max_b - min_b)`. -/
def normalize_weight (b : ℚ) : ℚ :=
  (max min_b (min b max_b) - min_b) / (max_b - min_b)

/-- The `normalized` list built from `heat_data`. -/
def normalize_heat (hd : List (ℚ × ℚ × ℚ)) : List (ℚ × ℚ × ℚ) :=
  hd.map (fun e => (e.1, e.2.1, normalize_weight e.2.2))

/-- Everything `generate_heatmap` computes that the claims mention: the heat
data, the heat points of the spatial join, the raw and sorted per-province
count tables, the merged boundary layer, the normalized heat layer, and the
values of the two base collections after the call (the code mutates only
fresh copies, so they are returned unchanged). -/
structure HeatmapOutput where
  heatData : List (ℚ × ℚ × ℚ)
  heatPoints : List (ℚ × ℚ)
  provinceCountsRaw : List (String × Nat)
  provinceCounts : List (String × Nat)
  mergedCounts : List (String × Nat)
  normalized : List (ℚ × ℚ × ℚ)
  gdf_after : List Region
  df_after : FireDataFrame

/-- plot.py `generate_heatmap`, its map-drawing calls elided: filter, build
`heat_data`, spatially join the points to the boundary layer, take
`value_counts`, left-merge the counts onto the boundary rows with zero fill,
normalize the intensities, and return the count table sorted descending. -/
def generate_heatmap (filter_mode : String) (date_start date_end date_exact : ℤ)
    (gdf : List Region) (df_all : FireDataFrame) : HeatmapOutput :=
  let df_filtered := filter_by_date df_all filter_mode date_start date_end date_exact
  let hd := heat_data df_filtered
  let heat_points := hd.map (fun e => (e.2.1, e.1))
  let joined := sjoin_names heat_points gdf
  let province_counts := value_counts joined
  let gdf_merged := merge_counts gdf province_counts
  { heatData := hd
    heatPoints := heat_points
    provinceCountsRaw := province_counts
    provinceCounts := sortDesc province_counts
    mergedCounts := gdf_merged
    normalized := normalize_heat hd
    gdf_after := gdf
    df_after := df_all }

/-! Helper lemmas about the sort model. -/

theorem perm_insertDesc (x : String × Nat) (l : List (String × Nat)) :
    List.Perm (insertDesc x l) (x :: l) := by
  induction l with
  | nil => exact List.Perm.refl _
  | cons y ys ih =>
    unfold insertDesc
    by_cases h : x.2 < y.2
    · rw [if_pos h]
      exact (ih.cons y).trans (List.Perm.swap x y ys)
    · rw [if_neg h]

theorem perm_sortDesc (l : List (String × Nat)) : List.Perm (sortDesc l) l := by
  induction l with
  | nil => exact List.Perm.refl _
  | cons x xs ih => exact (perm_insertDesc x (sortDesc xs)).trans (ih.cons x)

theorem sorted_insertDesc {x : String × Nat} {l : List (String × Nat)}
    (hl : List.Sorted (fun a b : String × Nat => b.2 ≤ a.2) l) :
    List.Sorted (fun a b : String × Nat => b.2 ≤ a.2) (insertDesc x l) := by
  induction l with
  | nil => simp [insertDesc]
  | cons y ys ih =>
    rw [List.sorted_cons] at hl
    unfold insertDesc
    by_cases h : x.2 < y.2
    · rw [if_pos h, List.sorted_cons]
      constructor
      · intro b hb
        rcases List.mem_cons.mp ((perm_insertDesc x ys).mem_iff.mp hb) with hbx | hbys
        · rw [hbx]; exact Nat.le_of_lt h
        · exact hl.1 b hbys
      · exact ih hl.2
    · rw [if_neg h, List.sorted_cons]
      refine ⟨?_, List.sorted_cons.mpr hl⟩
      intro b hb
      rcases List.mem_cons.mp hb with hby | hbys
      · rw [hby]; exact Nat.le_of_not_lt h
      · exact le_trans (hl.1 b hbys) (Nat.le_of_not_lt h)

theorem sorted_sortDesc (l : List (String × Nat)) :
    List.Sorted (fun a b : String × Nat => b.2 ≤ a.2) (sortDesc l) := by
  induction l with
  | nil => simp [sortDesc]
  | cons x xs ih => exact sorted_insertDesc ih

theorem filter_count_insertDesc (c : Nat) (x : String × Nat) (l : List (String × Nat)) :
    (insertDesc x l).filter (fun e => decide (e.2 = c))
      = if x.2 = c then x :: l.filter (fun e => decide (e.2 = c))
        else l.filter (fun e => decide (e.2 = c)) := by
  induction l with
  | nil =>
    by_cases hx : x.2 = c <;> simp [insertDesc, List.filter, hx]
  | cons y ys ih =>
    unfold insertDesc
    by_cases h : x.2 < y.2
    · rw [if_pos h, List.filter_cons, ih]
      by_cases hx : x.2 = c
      · have hy : ¬ y.2 = c := by omega
        simp [hx, hy]
      · simp [hx, List.filter_cons]
    · rw [if_neg h, List.filter_cons]
      by_cases hx : x.2 = c
      · simp [hx, List.filter_cons]
      · simp [hx, List.filter_cons]

theorem filter_count_sortDesc (c : Nat) (l : List (String × Nat)) :
    (sortDesc l).filter (fun e => decide (e.2 = c)) = l.filter (fun e => decide (e.2 = c)) := by
  induction l with
  | nil => rfl
  | cons x xs ih =>
    show (insertDesc x (sortDesc xs)).filter (fun e => decide (e.2 = c)) = _
    rw [filter_count_insertDesc, List.filter_cons, ih]
    by_cases hx : x.2 = c <;> simp [hx]

/-! Helper lemmas about `distinct_in_order`. -/

theorem mem_distinct_in_order {n : String} {l : List String} :
    n ∈ distinct_in_order l ↔ n ∈ l := by
  induction l with
  | nil => simp [distinct_in_order]
  | cons m ms ih =>
    simp only [distinct_in_order, List.mem_cons, List.mem_filter, ih, decide_eq_true_eq]
    constructor
    · rintro (rfl | ⟨h1, _⟩)
      · exact Or.inl rfl
      · exact Or.inr h1
    · rintro (rfl | h)
      · exact Or.inl rfl
      · by_cases hnm : n = m
        · exact Or.inl hnm
        · exact Or.inr ⟨h, hnm⟩

theorem nodup_distinct_in_order (l : List String) : (distinct_in_order l).Nodup := by
  induction l with
  | nil => simp [distinct_in_order]
  | cons m ms ih =>
    rw [distinct_in_order]
    refine List.nodup_cons.mpr ⟨?_, ih.filter _⟩
    intro hmem
    have := List.mem_filter.mp hmem
    simp at this

theorem sum_counts_distinct (l : List String) :
    ((distinct_in_order l).map (fun n => l.count n)).sum = l.length := by
  induction l with
  | nil => rfl
  | cons n ns ih =>
    rw [distinct_in_order, List.map_cons, List.sum_cons]
    have hcount_tail : ∀ m ∈ (distinct_in_order ns).filter (fun m => decide (m ≠ n)),
        (n :: ns).count m = ns.count m := by
      intro m hm
      have hne : m ≠ n := by simpa using (List.mem_filter.mp hm).2
      rw [List.count_cons]
      have hb : (n == m) = false := by simpa using (Ne.symm hne)
      simp [hb]
    rw [List.map_congr_left hcount_tail]
    by_cases hn : n ∈ ns
    · have hmemD : n ∈ distinct_in_order ns := mem_distinct_in_order.mpr hn
      have hD := nodup_distinct_in_order ns
      have hfe : (distinct_in_order ns).filter (fun m => decide (m ≠ n))
          = (distinct_in_order ns).erase n := by
        rw [hD.erase_eq_filter n]
        apply List.filter_congr
        intro m _
        by_cases hmn : m = n <;> simp [hmn]
      have hperm : List.Perm (distinct_in_order ns) (n :: (distinct_in_order ns).erase n) :=
        List.perm_cons_erase hmemD
      have hsum : ((distinct_in_order ns).map (fun m => ns.count m)).sum
          = ns.count n + (((distinct_in_order ns).erase n).map (fun m => ns.count m)).sum := by
        rw [(hperm.map (fun m => ns.count m)).sum_eq, List.map_cons, List.sum_cons]
      rw [hfe]
      rw [ih] at hsum
      rw [List.count_cons]
      simp only [beq_self_eq_true, if_pos, List.length_cons]
      omega
    · have hfe : (distinct_in_order ns).filter (fun m => decide (m ≠ n))
          = distinct_in_order ns := by
        apply List.filter_eq_self.mpr
        intro m hm
        have : m ≠ n := fun he => hn (he ▸ mem_distinct_in_order.mp hm)
        simpa using this
      rw [hfe, ih, List.count_cons]
      have hc0 : ns.count n = 0 := List.count_eq_zero.mpr hn
      simp only [beq_self_eq_true, if_pos, List.length_cons]
      omega

/-! Helper lemmas about the spatial join and `value_counts`. -/

theorem filterMap_id_sjoin (pts : List (ℚ × ℚ)) (gdf : List Region) :
    (sjoin_names pts gdf).filterMap id
      = pts.flatMap
          (fun p => (gdf.filter (fun g => g.geometry_contains p.1 p.2)).map Region.ADM1_TH) := by
  induction pts with
  | nil => rfl
  | cons p ps ih =>
    rw [sjoin_names, List.flatMap_cons, List.filterMap_append]
    rw [sjoin_names] at ih
    rw [List.flatMap_cons, ih]
    congr 1
    by_cases hh : (gdf.filter (fun g => g.geometry_contains p.1 p.2)).isEmpty
    · rw [if_pos hh]
      rw [List.isEmpty_iff] at hh
      rw [hh]
      rfl
    · rw [if_neg hh, List.filterMap_map]
      exact List.filterMap_eq_map _ ▸ rfl

theorem count_name_filter_map (p : ℚ × ℚ) (gdf : List Region) (g : Region)
    (hg : g ∈ gdf) (hnd : (gdf.map Region.ADM1_TH).Nodup) :
    ((gdf.filter (fun h => h.geometry_contains p.1 p.2)).map Region.ADM1_TH).count g.ADM1_TH
      = if g.geometry_contains p.1 p.2 then 1 else 0 := by
  induction gdf with
  | nil => cases hg
  | cons h t ih =>
    rw [List.map_cons, List.nodup_cons] at hnd
    rcases List.mem_cons.mp hg with hgh | hgt
    · subst hgh
      rw [List.filter_cons]
      have hnotin : g.ADM1_TH ∉ (t.filter (fun h => h.geometry_contains p.1 p.2)).map Region.ADM1_TH := by
        intro hmem
        obtain ⟨r, hr, hrname⟩ := List.mem_map.mp hmem
        exact hnd.1 (hrname ▸ List.mem_map_of_mem Region.ADM1_TH (List.mem_of_mem_filter hr))
      by_cases hc : g.geometry_contains p.1 p.2
      · rw [if_pos (by simpa using hc), if_pos hc, List.map_cons, List.count_cons]
        rw [List.count_eq_zero.mpr hnotin]
        simp
      · rw [if_neg (by simpa using hc), if_neg hc]
        exact List.count_eq_zero.mpr hnotin
    · have hne : h.ADM1_TH ≠ g.ADM1_TH := by
        intro he
        exact hnd.1 (he ▸ List.mem_map_of_mem Region.ADM1_TH hgt)
      rw [List.filter_cons]
      by_cases hc : h.geometry_contains p.1 p.2
      · rw [if_pos (by simpa using hc), List.map_cons, List.count_cons, ih hgt hnd.2]
        have hb : (h.ADM1_TH == g.ADM1_TH) = false := by simpa using hne
        simp [hb]
      · rw [if_neg (by simpa using hc)]
        exact ih hgt hnd.2

theorem count_sjoin (pts : List (ℚ × ℚ)) (gdf : List Region) (g : Region)
    (hg : g ∈ gdf) (hnd : (gdf.map Region.ADM1_TH).Nodup) :
    ((sjoin_names pts gdf).filterMap id).count g.ADM1_TH
      = pts.countP (fun p => g.geometry_contains p.1 p.2) := by
  rw [filterMap_id_sjoin]
  induction pts with
  | nil => rfl
  | cons p ps ih =>
    rw [List.flatMap_cons, List.count_append, List.countP_cons, ih]
    rw [count_name_filter_map p gdf g hg hnd]
    by_cases hc : g.geometry_contains p.1 p.2
    all_goals simp [hc]
    all_goals omega

theorem mem_value_counts {names : List (Option String)} {e : String × Nat}
    (he : e ∈ value_counts names) :
    e.1 ∈ names.filterMap id ∧ e.2 = (names.filterMap id).count e.1 := by
  have hperm := perm_sortDesc
    ((distinct_in_order (names.filterMap id)).map
      (fun n => (n, (names.filterMap id).count n)))
  have hm : e ∈ (distinct_in_order (names.filterMap id)).map
      (fun n => (n, (names.filterMap id).count n)) := by
    exact hperm.mem_iff.mp he
  obtain ⟨n, hn, hne⟩ := List.mem_map.mp hm
  constructor
  · rw [← hne]
    exact mem_distinct_in_order.mp hn
  · rw [← hne]

theorem name_mem_value_counts {names : List (Option String)} {n : String}
    (hn : n ∈ names.filterMap id) :
    (n, (names.filterMap id).count n) ∈ value_counts names := by
  have hperm := perm_sortDesc
    ((distinct_in_order (names.filterMap id)).map
      (fun n => (n, (names.filterMap id).count n)))
  apply hperm.mem_iff.mpr
  exact List.mem_map_of_mem _ (mem_distinct_in_order.mpr hn)

theorem find_value_counts (names : List (Option String)) (s : String) :
    (((value_counts names).find? (fun e => e.1 == s)).map Prod.snd).getD 0
      = (names.filterMap id).count s := by
  cases hf : (value_counts names).find? (fun e => e.1 == s) with
  | none =>
    have hnot : s ∉ names.filterMap id := by
      intro hs
      have hmem := name_mem_value_counts hs
      have := List.find?_eq_none.mp hf _ hmem
      simp at this
    simp [List.count_eq_zero.mpr hnot]
  | some e =>
    have hp := List.find?_some hf
    have hmem := List.mem_of_find?_eq_some hf
    have hfacts := mem_value_counts hmem
    have he1 : e.1 = s := by simpa using hp
    rw [← he1]
    simpa using hfacts.2

theorem merge_counts_sjoin (pts : List (ℚ × ℚ)) (gdf : List Region)
    (hnd : (gdf.map Region.ADM1_TH).Nodup) :
    merge_counts gdf (value_counts (sjoin_names pts gdf))
      = gdf.map (fun g => (g.ADM1_TH, pts.countP (fun p => g.geometry_contains p.1 p.2))) := by
  unfold merge_counts
  apply List.map_congr_left
  intro g hg
  rw [find_value_counts, count_sjoin pts gdf g hg hnd]

theorem sum_value_counts (names : List (Option String)) :
    (((value_counts names).map Prod.snd)).sum = (names.filterMap id).length := by
  unfold value_counts
  rw [((perm_sortDesc _).map Prod.snd).sum_eq, List.map_map]
  have : (Prod.snd ∘ fun n => (n, (names.filterMap id).count n))
      = fun n => (names.filterMap id).count n := rfl
  rw [this]
  exact sum_counts_distinct _

theorem sum_sortDesc (l : List (String × Nat)) :
    ((sortDesc l).map Prod.snd).sum = (l.map Prod.snd).sum :=
  ((perm_sortDesc l).map Prod.snd).sum_eq

theorem matched_add_unmatched (pts : List (ℚ × ℚ)) (gdf : List Region)
    (hdisj : ∀ p ∈ pts, gdf.countP (fun g => g.geometry_contains p.1 p.2) ≤ 1) :
    ((sjoin_names pts gdf).filterMap id).length
      + (pts.filter (fun p => gdf.all (fun g => ! g.geometry_contains p.1 p.2))).length
      = pts.length := by
  rw [filterMap_id_sjoin]
  induction pts with
  | nil => rfl
  | cons p ps ih =>
    have hp := hdisj p (List.mem_cons_self p ps)
    have hps := ih (fun q hq => hdisj q (List.mem_cons_of_mem p hq))
    rw [List.flatMap_cons, List.length_append, List.filter_cons, List.length_cons]
    rw [List.length_map, ← List.countP_eq_length_filter]
    by_cases hh : ∀ g ∈ gdf, g.geometry_contains p.1 p.2 = false
    · have hz : gdf.countP (fun g => g.geometry_contains p.1 p.2) = 0 := by
        rw [List.countP_eq_length_filter, List.length_eq_zero]
        exact List.filter_eq_nil_iff.mpr (by intro g hg; simp [hh g hg])
      have hall : gdf.all (fun g => ! g.geometry_contains p.1 p.2) = true := by
        rw [List.all_eq_true]
        intro g hg
        simp [hh g hg]
      rw [hall, hz, if_pos rfl, List.length_cons]
      omega
    · have hex : ∃ g ∈ gdf, g.geometry_contains p.1 p.2 = true := by
        push_neg at hh
        obtain ⟨g, hg, hgc⟩ := hh
        exact ⟨g, hg, by simpa using hgc⟩
      have hpos : 0 < gdf.countP (fun g => g.geometry_contains p.1 p.2) := by
        obtain ⟨g, hg, hgc⟩ := hex
        exact List.countP_pos_iff.mpr ⟨g, hg, by simpa using hgc⟩
      have hone : gdf.countP (fun g => g.geometry_contains p.1 p.2) = 1 := by omega
      have hall : gdf.all (fun g => ! g.geometry_contains p.1 p.2) = false := by
        obtain ⟨g, hg, hgc⟩ := hex
        rw [List.all_eq_false]
        exact ⟨g, hg, by simp [hgc]⟩
      rw [hall, hone]
      simp only [Bool.false_eq_true, if_false]
      omega

/-! Support lemmas about the filter and the normalization. -/

theorem filter_by_date_flags (df : FireDataFrame) (mode : String) (ds de dx : ℤ) :
    (filter_by_date df mode ds de dx).hasLatitude = df.hasLatitude
    ∧ (filter_by_date df mode ds de dx).hasLongitude = df.hasLongitude
    ∧ (filter_by_date df mode ds de dx).hasBrightness = df.hasBrightness := by
  unfold filter_by_date
  split <;> exact ⟨rfl, rfl, rfl⟩

theorem normalize_weight_mem_unit (b : ℚ) :
    0 ≤ normalize_weight b ∧ normalize_weight b ≤ 1 := by
  unfold normalize_weight min_b max_b
  constructor
  · apply div_nonneg
    · have h1 : (250:ℚ) ≤ max 250 (min b 400) := le_max_left _ _
      linarith
    · norm_num
  · rw [div_le_one (by norm_num)]
    have h1 : min b 400 ≤ 400 := min_le_right _ _
    have h2 : max (250:ℚ) (min b 400) ≤ 400 := max_le (by norm_num) h1
    linarith

/-! Concrete fixtures used by witnesses and counterexamples: three provinces
covering disjoint longitude bands, and some small detection frames. -/

def regA : Region := ⟨"A", fun lon _ => decide (0 ≤ lon) && decide (lon < 10)⟩

def regB : Region := ⟨"B", fun lon _ => decide (10 ≤ lon) && decide (lon < 20)⟩

def regC : Region := ⟨"C", fun lon _ => decide (20 ≤ lon) && decide (lon < 30)⟩

/-- Four detections with dates 9, 10, 10, 11 (the spec's exact-filter example). -/
def df_dates : FireDataFrame :=
  ⟨[⟨0, 5, 300, 9⟩, ⟨0, 5, 300, 10⟩, ⟨1, 6, 310, 10⟩, ⟨0, 5, 300, 11⟩], true, true, true⟩

/-- A detection frame with all columns but no rows. -/
def df_empty_rows : FireDataFrame := ⟨[], true, true, true⟩

/-- Three same-date detections hitting province C first, then A, then B. -/
def df_ties : FireDataFrame :=
  ⟨[⟨0, 25, 300, 0⟩, ⟨0, 5, 300, 0⟩, ⟨0, 15, 300, 0⟩], true, true, true⟩

/-- Two detections inside province A, one outside every province. -/
def df_two_in_A : FireDataFrame :=
  ⟨[⟨0, 5, 300, 0⟩, ⟨0, 6, 400, 0⟩, ⟨0, 100, 250, 0⟩], true, true, true⟩

/-- One detection, but the frame lacks the latitude column. -/
def df_nolat : FireDataFrame := ⟨[⟨0, 5, 300, 0⟩], false, true, true⟩

/-- One detection, with coordinates but no brightness column. -/
def df_nobright : FireDataFrame := ⟨[⟨1, 2, 999, 0⟩], true, true, false⟩

/-- C3: for dataframes of calendar-dated detections, exact mode returns
exactly the rows whose `acq_date` equals the given date, range mode returns
exactly the rows whose `acq_date` lies in the inclusive interval
`[date_start, date_end]`, and when nothing matches the result is the empty
row list, not an error. -/
theorem filter_by_date_mode_spec (df : FireDataFrame) (ds de dx : ℤ) :
    (∀ r : Detection, r ∈ (filter_by_date df "exact" ds de dx).rows
        ↔ r ∈ df.rows ∧ r.acq_date = dx)
    ∧ (∀ r : Detection, r ∈ (filter_by_date df "range" ds de dx).rows
        ↔ r ∈ df.rows ∧ ds ≤ r.acq_date ∧ r.acq_date ≤ de)
    ∧ ((∀ r ∈ df.rows, r.acq_date ≠ dx)
        → (filter_by_date df "exact" ds de dx).rows = []) := by
  have hex : (filter_by_date df "exact" ds de dx).rows
      = df.rows.filter (fun r => decide (r.acq_date = dx)) := by
    unfold filter_by_date
    rw [if_neg (by decide)]
  have hra : (filter_by_date df "range" ds de dx).rows
      = df.rows.filter (fun r => decide (ds ≤ r.acq_date) && decide (r.acq_date ≤ de)) := by
    unfold filter_by_date
    rw [if_pos rfl]
  refine ⟨?_, ?_, ?_⟩
  · intro r
    rw [hex, List.mem_filter]
    simp
  · intro r
    rw [hra, List.mem_filter]
    simp
  · intro hnone
    rw [hex]
    apply List.filter_eq_nil_iff.mpr
    intro r hr
    simp [hnone r hr]

/-- C3 witness: on the 9/10/10/11 fixture no row has date 5, and the exact
filter at date 5 returns the empty row list. -/
theorem filter_by_date_mode_spec_witness :
    (∀ r ∈ df_dates.rows, r.acq_date ≠ 5)
    ∧ (filter_by_date df_dates "exact" 0 0 5).rows = [] :=
  ⟨by decide, (filter_by_date_mode_spec df_dates 0 0 5).2.2 (by decide)⟩

/-- C4: range mode with start = end = D selects the same dataframe as exact
mode with date D. -/
theorem filter_range_singleton_eq_exact (df : FireDataFrame) (D ds de dx : ℤ) :
    filter_by_date df "range" D D dx = filter_by_date df "exact" ds de D := by
  unfold filter_by_date
  rw [if_pos rfl, if_neg (by decide)]
  congr 1
  apply List.filter_congr
  intro r _
  by_cases h : r.acq_date = D
  · simp [h]
  · have h1 : ¬ (D ≤ r.acq_date) ∨ ¬ (r.acq_date ≤ D) := by omega
    rcases h1 with h1 | h1 <;> simp [h, h1]

/-- C10: every mode other than the string "range", including "exact" and
unrecognized strings, takes the exact branch of `filter_by_date`; nothing
is raised. -/
theorem filter_by_date_unknown_mode (df : FireDataFrame) (ds de dx : ℤ)
    (mode : String) (h : mode ≠ "range") :
    filter_by_date df mode ds de dx = filter_by_date df "exact" ds de dx := by
  unfold filter_by_date
  rw [if_neg h, if_neg (by decide)]

/-- C10 witness: the unrecognized mode "banana" behaves like exact mode. -/
theorem filter_by_date_unknown_mode_witness :
    filter_by_date df_dates "banana" 3 7 10 = filter_by_date df_dates "exact" 3 7 10 :=
  filter_by_date_unknown_mode df_dates 3 7 10 "banana" (by decide)

/-- C8: the base boundary collection and base detection collection are the
same after `generate_heatmap` as before: pandas boolean filtering and merge
build fresh frames, the brightness assignment lands on the filtered copy,
and the embedding returns both bases untouched. -/
theorem generate_heatmap_preserves_bases (m : String) (ds de dx : ℤ)
    (gdf : List Region) (df : FireDataFrame) :
    (generate_heatmap m ds de dx gdf df).gdf_after = gdf
    ∧ (generate_heatmap m ds de dx gdf df).df_after = df :=
  ⟨rfl, rfl⟩

/-- C5: when the filtered detection set is empty or a coordinate column is
missing, `generate_heatmap` still completes (the embedding is total): the
heat data and heat layer are empty, the returned count table is empty, and
every region's merged count is zero. -/
theorem generate_heatmap_degraded (m : String) (ds de dx : ℤ)
    (gdf : List Region) (df : FireDataFrame)
    (h : (filter_by_date df m ds de dx).rows = []
        ∨ df.hasLatitude = false ∨ df.hasLongitude = false) :
    (generate_heatmap m ds de dx gdf df).heatData = []
    ∧ (generate_heatmap m ds de dx gdf df).normalized = []
    ∧ (generate_heatmap m ds de dx gdf df).provinceCounts = []
    ∧ (generate_heatmap m ds de dx gdf df).mergedCounts
        = gdf.map (fun g => (g.ADM1_TH, 0)) := by
  have hflags := filter_by_date_flags df m ds de dx
  have hhd : heat_data (filter_by_date df m ds de dx) = [] := by
    unfold heat_data heat_rows
    rcases h with h | h | h
    · rw [h]
      simp
    · rw [hflags.1, h]
      simp
    · rw [hflags.2.1, h]
      simp
  refine ⟨hhd, ?_, ?_, ?_⟩
  · show normalize_heat (heat_data (filter_by_date df m ds de dx)) = []
    rw [hhd]
    rfl
  · show sortDesc (value_counts (sjoin_names
        ((heat_data (filter_by_date df m ds de dx)).map (fun e => (e.2.1, e.1))) gdf)) = []
    rw [hhd]
    rfl
  · show merge_counts gdf (value_counts (sjoin_names
        ((heat_data (filter_by_date df m ds de dx)).map (fun e => (e.2.1, e.1))) gdf)) = _
    rw [hhd]
    rfl

/-- C5 witness: a nonempty frame lacking the latitude column yields an empty
heat layer and all-zero merged counts, with no failure. -/
theorem generate_heatmap_degraded_witness :
    df_nolat.hasLatitude = false
    ∧ (generate_heatmap "exact" 0 0 0 [regA, regB] df_nolat).normalized = []
    ∧ (generate_heatmap "exact" 0 0 0 [regA, regB] df_nolat).mergedCounts
        = [("A", 0), ("B", 0)] := by
  have h := generate_heatmap_degraded "exact" 0 0 0 [regA, regB] df_nolat (Or.inr (Or.inl rfl))
  exact ⟨rfl, h.2.1, by rw [h.2.2.2]; rfl⟩

/-- C7: the heat weight of every normalized entry is exactly the clamp
formula `(max min_b (min b max_b) - min_b) / (max_b - min_b)` applied to the
entry's intensity value b, and every weight lies in [0, 1]. -/
theorem generate_heatmap_normalized_weights (m : String) (ds de dx : ℤ)
    (gdf : List Region) (df : FireDataFrame) :
    (generate_heatmap m ds de dx gdf df).normalized
      = (generate_heatmap m ds de dx gdf df).heatData.map
          (fun e => (e.1, e.2.1, (max min_b (min e.2.2 max_b) - min_b) / (max_b - min_b)))
    ∧ ∀ e ∈ (generate_heatmap m ds de dx gdf df).normalized, 0 ≤ e.2.2 ∧ e.2.2 ≤ 1 := by
  constructor
  · rfl
  · intro e he
    have hm : e ∈ normalize_heat (heat_data
        (filter_by_date df m ds de dx)) := he
    obtain ⟨x, hx, hxe⟩ := List.mem_map.mp hm
    rw [← hxe]
    exact normalize_weight_mem_unit x.2.2

/-- C7 witness: on a frame holding intensities 300, 400 and 250, the weight
of the intensity-300 detection is in the layer, is bounded, and evaluates to
1/3; intensity 400 maps to weight 1. -/
theorem generate_heatmap_normalized_weights_witness :
    ((0:ℚ), (5:ℚ), normalize_weight 300) ∈
        (generate_heatmap "exact" 0 0 0 [regA, regB] df_two_in_A).normalized
    ∧ (0 ≤ normalize_weight 300 ∧ normalize_weight 300 ≤ 1)
    ∧ normalize_weight 300 = 1/3
    ∧ normalize_weight 400 = 1 := by
  refine ⟨?_, ?_, ?_, ?_⟩
  · simp [generate_heatmap, heat_data, heat_rows, normalize_heat, filter_by_date, df_two_in_A]
  · exact (generate_heatmap_normalized_weights "exact" 0 0 0 [regA, regB] df_two_in_A).2
      ((0:ℚ), (5:ℚ), normalize_weight 300)
      (by simp [generate_heatmap, heat_data, heat_rows, normalize_heat, filter_by_date,
        df_two_in_A])
  · norm_num [normalize_weight, min_b, max_b]
  · norm_num [normalize_weight, min_b, max_b]

/-- C9: with coordinate columns present but no brightness column, every heat
row carries the default intensity 1, which clamps up to the lower bound 250,
so every normalized weight is exactly 0. -/
theorem no_brightness_weights_zero (m : String) (ds de dx : ℤ)
    (gdf : List Region) (df : FireDataFrame) (hb : df.hasBrightness = false) :
    (∀ e ∈ (generate_heatmap m ds de dx gdf df).heatData, e.2.2 = 1)
    ∧ ∀ e ∈ (generate_heatmap m ds de dx gdf df).normalized, e.2.2 = 0 := by
  have hbf : (filter_by_date df m ds de dx).hasBrightness = false := by
    rw [(filter_by_date_flags df m ds de dx).2.2, hb]
  have hone : ∀ e ∈ heat_data (filter_by_date df m ds de dx), e.2.2 = 1 := by
    intro e he
    unfold heat_data heat_rows at he
    rw [hbf] at he
    by_cases hcond : ((filter_by_date df m ds de dx).hasLatitude
        && (filter_by_date df m ds de dx).hasLongitude
        && ! (filter_by_date df m ds de dx).rows.isEmpty) = true
    · rw [if_pos hcond, List.map_map] at he
      obtain ⟨x, hx, hxe⟩ := List.mem_map.mp he
      rw [← hxe]
      rfl
    · rw [if_neg hcond] at he
      simp at he
  constructor
  · exact hone
  · intro e he
    have hm : e ∈ normalize_heat (heat_data (filter_by_date df m ds de dx)) := he
    obtain ⟨x, hx, hxe⟩ := List.mem_map.mp hm
    have hx1 : x.2.2 = 1 := hone x hx
    rw [← hxe]
    show normalize_weight x.2.2 = 0
    rw [hx1]
    norm_num [normalize_weight, min_b, max_b]

/-- C9 witness: the single detection of a brightness-free frame appears in
the normalized layer with weight exactly 0. -/
theorem no_brightness_weights_zero_witness :
    df_nobright.hasBrightness = false
    ∧ ((1:ℚ), (2:ℚ), normalize_weight 1) ∈
        (generate_heatmap "exact" 0 0 0 [regA] df_nobright).normalized
    ∧ ((1:ℚ), (2:ℚ), normalize_weight 1).2.2 = 0 :=
  ⟨rfl,
   by simp [generate_heatmap, heat_data, heat_rows, normalize_heat, filter_by_date, df_nobright],
   (no_brightness_weights_zero "exact" 0 0 0 [regA] df_nobright rfl).2
     ((1:ℚ), (2:ℚ), normalize_weight 1)
     (by simp [generate_heatmap, heat_data, heat_rows, normalize_heat, filter_by_date,
       df_nobright])⟩

/-- C1 counterexample: with one region and no detections, the count table
returned by `generate_heatmap` is empty — the region does not appear with
count 0; the zero count lives only in the merged boundary layer. -/
theorem provinceCounts_omits_zero_count_region :
    ((generate_heatmap "exact" 0 0 0 [regA] df_empty_rows).provinceCounts.countP
        (fun e => e.1 == "A")) = 0
    ∧ (generate_heatmap "exact" 0 0 0 [regA] df_empty_rows).mergedCounts = [("A", 0)] :=
  ⟨rfl, rfl⟩

theorem nodup_value_counts_names (names : List (Option String)) :
    ((value_counts names).map Prod.fst).Nodup := by
  unfold value_counts
  have hperm := (perm_sortDesc ((distinct_in_order (names.filterMap id)).map
      (fun n => (n, (names.filterMap id).count n)))).map Prod.fst
  rw [hperm.nodup_iff, List.map_map]
  have hc : (Prod.fst ∘ fun n => (n, (names.filterMap id).count n)) = id := rfl
  rw [hc, List.map_id]
  exact nodup_distinct_in_order _

/-- C1 (amended): when region names are pairwise distinct, the merged
boundary layer contains every region exactly once, in input order, with
count equal to the number of heat points within it (0 when none); the
returned sorted count table contains exactly the regions with at least one
matched detection — every entry has a positive count, every matched region
appears with its count, no name appears twice, and every entry names a
matched region. -/
theorem mergedCounts_left_join_complete (m : String) (ds de dx : ℤ)
    (gdf : List Region) (df : FireDataFrame)
    (hnd : (gdf.map Region.ADM1_TH).Nodup) :
    (generate_heatmap m ds de dx gdf df).mergedCounts
      = gdf.map (fun g => (g.ADM1_TH,
          (((generate_heatmap m ds de dx gdf df).heatPoints.filter
            (fun p => g.geometry_contains p.1 p.2)).length)))
    ∧ (∀ e ∈ (generate_heatmap m ds de dx gdf df).provinceCounts, 0 < e.2)
    ∧ (∀ g ∈ gdf,
        (∃ p ∈ (generate_heatmap m ds de dx gdf df).heatPoints,
          g.geometry_contains p.1 p.2 = true) →
        (g.ADM1_TH,
          (((generate_heatmap m ds de dx gdf df).heatPoints.filter
            (fun p => g.geometry_contains p.1 p.2)).length))
          ∈ (generate_heatmap m ds de dx gdf df).provinceCounts)
    ∧ ((generate_heatmap m ds de dx gdf df).provinceCounts.map Prod.fst).Nodup
    ∧ ∀ e ∈ (generate_heatmap m ds de dx gdf df).provinceCounts,
        ∃ g ∈ gdf, g.ADM1_TH = e.1
          ∧ ∃ p ∈ (generate_heatmap m ds de dx gdf df).heatPoints,
              g.geometry_contains p.1 p.2 = true := by
  have hhp : (generate_heatmap m ds de dx gdf df).heatPoints
      = (heat_data (filter_by_date df m ds de dx)).map (fun e => (e.2.1, e.1)) := rfl
  have hpc : (generate_heatmap m ds de dx gdf df).provinceCounts
      = sortDesc (value_counts (sjoin_names
          ((heat_data (filter_by_date df m ds de dx)).map (fun e => (e.2.1, e.1))) gdf)) := rfl
  refine ⟨?_, ?_, ?_, ?_, ?_⟩
  · show merge_counts gdf (value_counts (sjoin_names
        ((heat_data (filter_by_date df m ds de dx)).map (fun e => (e.2.1, e.1))) gdf)) = _
    rw [merge_counts_sjoin ((heat_data (filter_by_date df m ds de dx)).map
        (fun e => (e.2.1, e.1))) gdf hnd]
    apply List.map_congr_left
    intro g _
    rw [List.countP_eq_length_filter]
    rfl
  · intro e he
    have he2 : e ∈ value_counts (sjoin_names
        ((heat_data (filter_by_date df m ds de dx)).map (fun e => (e.2.1, e.1))) gdf) :=
      (perm_sortDesc _).mem_iff.mp he
    have hfacts := mem_value_counts he2
    rw [hfacts.2]
    exact List.count_pos_iff.mpr hfacts.1
  · intro g hg hex
    rw [hhp] at hex
    obtain ⟨p, hp, hcont⟩ := hex
    have hmemvals : g.ADM1_TH ∈ (sjoin_names
        ((heat_data (filter_by_date df m ds de dx)).map (fun e => (e.2.1, e.1)))
          gdf).filterMap id := by
      rw [filterMap_id_sjoin]
      exact List.mem_flatMap.mpr
        ⟨p, hp, List.mem_map_of_mem _ (List.mem_filter.mpr ⟨hg, hcont⟩)⟩
    have hentry := name_mem_value_counts hmemvals
    rw [count_sjoin ((heat_data (filter_by_date df m ds de dx)).map
          (fun e => (e.2.1, e.1))) gdf g hg hnd,
        List.countP_eq_length_filter] at hentry
    rw [hhp, hpc]
    exact (perm_sortDesc _).mem_iff.mpr hentry
  · rw [hpc]
    have hperm := (perm_sortDesc (value_counts (sjoin_names
        ((heat_data (filter_by_date df m ds de dx)).map (fun e => (e.2.1, e.1)))
          gdf))).map Prod.fst
    rw [hperm.nodup_iff]
    exact nodup_value_counts_names _
  · intro e he
    rw [hpc] at he
    have he2 := (perm_sortDesc _).mem_iff.mp he
    have hfacts := mem_value_counts he2
    have hmem := hfacts.1
    rw [filterMap_id_sjoin] at hmem
    obtain ⟨p, hp, hmm⟩ := List.mem_flatMap.mp hmem
    obtain ⟨g, hgf, hgname⟩ := List.mem_map.mp hmm
    have hgg := List.mem_filter.mp hgf
    rw [hhp]
    exact ⟨g, hgg.1, hgname, p, hp, hgg.2⟩

/-- C1 (amended) witness: two distinct regions, two detections in A and one
in no region: the merged layer lists A with 2 and B with 0 in input order,
and the returned table holds exactly the matched region A, once, with its
positive count 2. -/
theorem mergedCounts_left_join_complete_witness :
    ([regA, regB].map Region.ADM1_TH).Nodup
    ∧ (generate_heatmap "exact" 0 0 0 [regA, regB] df_two_in_A).mergedCounts
      = [regA, regB].map (fun g => (g.ADM1_TH,
          (((generate_heatmap "exact" 0 0 0 [regA, regB] df_two_in_A).heatPoints.filter
            (fun p => g.geometry_contains p.1 p.2)).length)))
    ∧ (∀ e ∈ (generate_heatmap "exact" 0 0 0 [regA, regB] df_two_in_A).provinceCounts, 0 < e.2)
    ∧ (∀ g ∈ [regA, regB],
        (∃ p ∈ (generate_heatmap "exact" 0 0 0 [regA, regB] df_two_in_A).heatPoints,
          g.geometry_contains p.1 p.2 = true) →
        (g.ADM1_TH,
          (((generate_heatmap "exact" 0 0 0 [regA, regB] df_two_in_A).heatPoints.filter
            (fun p => g.geometry_contains p.1 p.2)).length))
          ∈ (generate_heatmap "exact" 0 0 0 [regA, regB] df_two_in_A).provinceCounts)
    ∧ ((generate_heatmap "exact" 0 0 0 [regA, regB] df_two_in_A).provinceCounts.map
        Prod.fst).Nodup
    ∧ (∀ e ∈ (generate_heatmap "exact" 0 0 0 [regA, regB] df_two_in_A).provinceCounts,
        ∃ g ∈ [regA, regB], g.ADM1_TH = e.1
          ∧ ∃ p ∈ (generate_heatmap "exact" 0 0 0 [regA, regB] df_two_in_A).heatPoints,
              g.geometry_contains p.1 p.2 = true)
    ∧ (generate_heatmap "exact" 0 0 0 [regA, regB] df_two_in_A).mergedCounts
      = [("A", 2), ("B", 0)]
    ∧ (generate_heatmap "exact" 0 0 0 [regA, regB] df_two_in_A).provinceCounts = [("A", 2)] :=
  ⟨by decide,
   (mergedCounts_left_join_complete "exact" 0 0 0 [regA, regB] df_two_in_A (by decide)).1,
   (mergedCounts_left_join_complete "exact" 0 0 0 [regA, regB] df_two_in_A (by decide)).2.1,
   (mergedCounts_left_join_complete "exact" 0 0 0 [regA, regB] df_two_in_A (by decide)).2.2.1,
   (mergedCounts_left_join_complete "exact" 0 0 0 [regA, regB] df_two_in_A (by decide)).2.2.2.1,
   (mergedCounts_left_join_complete "exact" 0 0 0 [regA, regB] df_two_in_A (by decide)).2.2.2.2,
   by decide, by decide⟩

/-- C2: when every heat point lies within at most one region (pairwise
disjoint polygons) and both coordinate columns are present, the counts in
the returned table plus the detections within no region sum to the number
of filtered detections: none is dropped or double-counted. -/
theorem count_conservation (m : String) (ds de dx : ℤ)
    (gdf : List Region) (df : FireDataFrame)
    (hla : df.hasLatitude = true) (hlo : df.hasLongitude = true)
    (hdisj : ∀ p ∈ (generate_heatmap m ds de dx gdf df).heatPoints,
        gdf.countP (fun g => g.geometry_contains p.1 p.2) ≤ 1) :
    ((generate_heatmap m ds de dx gdf df).provinceCounts.map Prod.snd).sum
      + ((generate_heatmap m ds de dx gdf df).heatPoints.filter
          (fun p => gdf.all (fun g => ! g.geometry_contains p.1 p.2))).length
      = (filter_by_date df m ds de dx).rows.length := by
  have hflags := filter_by_date_flags df m ds de dx
  have hlen : ((heat_data (filter_by_date df m ds de dx)).map
      (fun e => (e.2.1, e.1))).length = (filter_by_date df m ds de dx).rows.length := by
    rw [List.length_map]
    unfold heat_data heat_rows
    rw [hflags.1, hla, hflags.2.1, hlo]
    by_cases hre : (filter_by_date df m ds de dx).rows.isEmpty = true
    · have hnil : (filter_by_date df m ds de dx).rows = [] := List.isEmpty_iff.mp hre
      rw [hnil]
      simp
    · have hcond : (true && true && ! (filter_by_date df m ds de dx).rows.isEmpty) = true := by
        rw [Bool.not_eq_true] at hre
        simp [hre]
      rw [if_pos hcond, List.length_map, List.length_map]
  have hdisj2 : ∀ p ∈ (heat_data (filter_by_date df m ds de dx)).map
      (fun e => (e.2.1, e.1)), gdf.countP (fun g => g.geometry_contains p.1 p.2) ≤ 1 := hdisj
  have hmain := matched_add_unmatched
    ((heat_data (filter_by_date df m ds de dx)).map (fun e => (e.2.1, e.1))) gdf hdisj2
  show ((sortDesc (value_counts (sjoin_names
      ((heat_data (filter_by_date df m ds de dx)).map (fun e => (e.2.1, e.1))) gdf))).map
        Prod.snd).sum
    + (((heat_data (filter_by_date df m ds de dx)).map (fun e => (e.2.1, e.1))).filter
        (fun p => gdf.all (fun g => ! g.geometry_contains p.1 p.2))).length
    = (filter_by_date df m ds de dx).rows.length
  rw [sum_sortDesc, sum_value_counts, hmain, hlen]

/-- C2 witness: two disjoint provinces, two detections in A and one outside
all: 2 + 0 counted plus 1 unmatched equals the 3 filtered detections. -/
theorem count_conservation_witness :
    df_two_in_A.hasLatitude = true
    ∧ (∀ p ∈ (generate_heatmap "exact" 0 0 0 [regA, regB] df_two_in_A).heatPoints,
        [regA, regB].countP (fun g => g.geometry_contains p.1 p.2) ≤ 1)
    ∧ ((generate_heatmap "exact" 0 0 0 [regA, regB] df_two_in_A).provinceCounts.map
          Prod.snd).sum
      + ((generate_heatmap "exact" 0 0 0 [regA, regB] df_two_in_A).heatPoints.filter
          (fun p => [regA, regB].all (fun g => ! g.geometry_contains p.1 p.2))).length
      = (filter_by_date df_two_in_A "exact" 0 0 0).rows.length :=
  ⟨rfl, by decide,
   count_conservation "exact" 0 0 0 [regA, regB] df_two_in_A rfl rfl (by decide)⟩

/-- C6 counterexample: three regions in boundary order A, B, C each with one
same-date detection, the detections hitting C first, then A, then B: the
returned table is [C, A, B] — ties follow the order regions first appear in
the join results, not the boundary order [A, B, C]. -/
theorem provinceCounts_tie_order_counterexample :
    [regA, regB, regC].map Region.ADM1_TH = ["A", "B", "C"]
    ∧ (generate_heatmap "exact" 0 0 0 [regA, regB, regC] df_ties).provinceCounts
      = [("C", 1), ("A", 1), ("B", 1)]
    ∧ (generate_heatmap "exact" 0 0 0 [regA, regB, regC] df_ties).provinceCounts
      ≠ [("A", 1), ("B", 1), ("C", 1)] :=
  ⟨rfl, by decide, by decide⟩

/-- C6 (amended): the returned per-region count table is sorted in
descending order of count, and entries with equal counts keep the relative
order of the raw value-counts table (first appearance among the joined
detections), which need not be the boundary-collection order. -/
theorem provinceCounts_sorted_desc (m : String) (ds de dx : ℤ)
    (gdf : List Region) (df : FireDataFrame) :
    List.Sorted (fun a b : String × Nat => b.2 ≤ a.2)
      (generate_heatmap m ds de dx gdf df).provinceCounts
    ∧ ∀ c : Nat,
      (generate_heatmap m ds de dx gdf df).provinceCounts.filter
          (fun e => decide (e.2 = c))
        = (generate_heatmap m ds de dx gdf df).provinceCountsRaw.filter
          (fun e => decide (e.2 = c)) :=
  ⟨sorted_sortDesc _, fun c => filter_count_sortDesc c _⟩
